import Mathlib

/-!
Formal model of the accounting core of `collective-accounting`
(`src/collective_accounting/{money,account,operations,ledger}.py` and the
serialization layer `src/lausa/io.py`).

Conventions of the embedding:

* A `Money` value (a Python `Decimal` always quantized to two fractional
  digits) is represented by its exact number of cents, an `Int`.
  Python's `Decimal` context (28 significant digits) is modelled as exact
  rational arithmetic; `quantize(Decimal("0.01"))` with the context's
  default `ROUND_HALF_EVEN` rounding becomes "round `100 * value` to the
  nearest integer, ties to even".  The rounding is implemented on an
  explicit numerator/denominator pair (`rneDiv`) so the kernel can
  evaluate it; `rne` is the same rounding stated on `ℚ` via `Int.floor`,
  and the two are proved to agree.
* Arithmetic on already-quantized cent values followed by re-quantization
  is the identity; each `Money` operator is therefore defined in its
  reduced integer form, and a `_spec` theorem proves it equal to the
  faithful "exact rational result, then quantize" translation of the
  Python operator.
* A `LedgerState` (a Python `dict` subclass, insertion ordered) is an
  association list with the dict update/delete/iteration discipline.
* Python exceptions become explicit error results.  Because
  `Ledger.apply` works on a *shallow* `copy` of the committed state
  (the `Account` objects are shared between the copy and the previously
  committed record), the account mutations performed before an exception
  is raised remain observable through the committed record.  Error
  results therefore carry the state at the moment of the failure, and
  `Ledger.apply` merges the mutated shared accounts back into the last
  committed record on failure (`mergeShared`), exactly as CPython's
  object aliasing does.
-/

/-- Round the rational `num / den` (with `den > 0`) to the nearest
integer, ties to even: the rounding performed by `Decimal.quantize`
under the default `ROUND_HALF_EVEN` context rounding of Python's
`decimal` module.  `num = den * f + r` with `0 ≤ r < den`, so the
fractional part `r / den` is compared with `1 / 2` as `2 * r` versus
`den`. -/
def rneDiv (num den : ℤ) : ℤ :=
  let f := num.ediv den
  let r := num.emod den
  if 2 * r < den then f
  else if den < 2 * r then f + 1
  else if f % 2 = 0 then f else f + 1

/-- The same rounding stated on a rational number via `Int.floor`:
specification form of `rneDiv`. -/
def rne (q : ℚ) : ℤ :=
  if q - ⌊q⌋ < 1 / 2 then ⌊q⌋
  else if 1 / 2 < q - ⌊q⌋ then ⌊q⌋ + 1
  else if ⌊q⌋ % 2 = 0 then ⌊q⌋ else ⌊q⌋ + 1

/-- `Money.__new__`: quantize a numeric value to cents
(`Decimal(number).quantize(Decimal("0.01"))`).  The argument is the
exact value; the result is the number of cents.  `100 * q` has numerator
`100 * q.num` over `q.den`. -/
def moneyOfRat (q : ℚ) : ℤ := rneDiv (100 * q.num) q.den

theorem floor_intCast_div (num den : ℤ) (h : 0 < den) :
    ⌊(num : ℚ) / (den : ℚ)⌋ = num.ediv den := by
  have hden : (0 : ℚ) < (den : ℚ) := by exact_mod_cast h
  rw [Int.floor_eq_iff]
  have hmod₁ : (0 : ℤ) ≤ num.emod den := Int.emod_nonneg _ (by omega)
  have hmod₂ : num.emod den < den := Int.emod_lt_of_pos _ h
  have hsplit : num = den * num.ediv den + num.emod den := (Int.ediv_add_emod _ _).symm
  constructor
  · rw [le_div_iff₀ hden]
    have h1 : (0 : ℚ) ≤ (num.emod den : ℚ) := by exact_mod_cast hmod₁
    have h2 : (num : ℚ) = (den : ℚ) * (num.ediv den : ℚ) + (num.emod den : ℚ) := by
      exact_mod_cast hsplit
    nlinarith
  · rw [div_lt_iff₀ hden]
    have h1 : (num.emod den : ℚ) < (den : ℚ) := by exact_mod_cast hmod₂
    have h2 : (num : ℚ) = (den : ℚ) * (num.ediv den : ℚ) + (num.emod den : ℚ) := by
      exact_mod_cast hsplit
    nlinarith

theorem rneDiv_eq_rne (num den : ℤ) (h : 0 < den) :
    rneDiv num den = rne ((num : ℚ) / (den : ℚ)) := by
  have hden : (0 : ℚ) < (den : ℚ) := by exact_mod_cast h
  have hfl : ⌊(num : ℚ) / (den : ℚ)⌋ = num.ediv den := floor_intCast_div num den h
  have hsplit : num = den * num.ediv den + num.emod den := (Int.ediv_add_emod _ _).symm
  have hfrac : (num : ℚ) / (den : ℚ) - (num.ediv den : ℚ) = (num.emod den : ℚ) / (den : ℚ) := by
    rw [div_sub' _ _ _ (ne_of_gt hden), div_eq_div_iff (ne_of_gt hden) (ne_of_gt hden)]
    have : (num : ℚ) = (den : ℚ) * (num.ediv den : ℚ) + (num.emod den : ℚ) := by
      exact_mod_cast hsplit
    ring_nf
    nlinarith [this]
  have hlt : ((num : ℚ) / (den : ℚ) - (num.ediv den : ℚ) < 1 / 2) ↔ (2 * num.emod den < den) := by
    rw [hfrac, div_lt_div_iff₀ hden (by norm_num)]
    constructor <;> intro hx
    · exact_mod_cast (by linarith : (2 : ℚ) * (num.emod den : ℚ) < (den : ℚ))
    · have : (2 : ℚ) * (num.emod den : ℚ) < (den : ℚ) := by exact_mod_cast hx
      linarith
  have hgt : (1 / 2 < (num : ℚ) / (den : ℚ) - (num.ediv den : ℚ)) ↔ (den < 2 * num.emod den) := by
    rw [hfrac, div_lt_div_iff₀ (by norm_num) hden]
    constructor <;> intro hx
    · exact_mod_cast (by linarith : (den : ℚ) < 2 * (num.emod den : ℚ))
    · have : (den : ℚ) < 2 * (num.emod den : ℚ) := by exact_mod_cast hx
      linarith
  rw [rne, rneDiv, hfl]
  simp only [hlt, hgt]

theorem rne_intCast (k : ℤ) : rne (k : ℚ) = k := by
  simp [rne, Int.floor_intCast]

theorem rne_eq_of_close (k : ℤ) (q : ℚ) (h : |q - k| < 1 / 2) : rne q = k := by
  rw [abs_sub_lt_iff] at h
  obtain ⟨h1, h2⟩ := h
  rcases le_or_lt (k : ℚ) q with hq | hq
  · have hfl : ⌊q⌋ = k := by
      rw [Int.floor_eq_iff]
      constructor
      · exact_mod_cast hq
      · linarith
    rw [rne, hfl]
    have : q - (k : ℚ) < 1 / 2 := by linarith
    simp only [this, if_pos]
  · have hfl : ⌊q⌋ = k - 1 := by
      rw [Int.floor_eq_iff]
      push_cast
      constructor <;> linarith
    rw [rne, hfl]
    have hgt : (1 : ℚ) / 2 < q - ((k : ℚ) - 1) := by linarith
    have hnotlt : ¬ q - (((k : ℤ) - 1 : ℤ) : ℚ) < 1 / 2 := by push_cast; linarith
    rw [if_neg hnotlt, if_pos (by push_cast; linarith)]
    omega

theorem abs_rne_sub_le (q : ℚ) : |(rne q : ℚ) - q| ≤ 1 / 2 := by
  have hfl : (⌊q⌋ : ℚ) ≤ q := Int.floor_le q
  have hfu : q < ⌊q⌋ + 1 := Int.lt_floor_add_one q
  rw [rne]
  split_ifs with h1 h2 h3
  · rw [abs_sub_le_iff]; constructor <;> linarith
  · push_cast
    rw [abs_sub_le_iff]; constructor <;> linarith
  · have : q - ⌊q⌋ = 1 / 2 := by linarith
    rw [abs_sub_le_iff]; constructor <;> linarith
  · have : q - ⌊q⌋ = 1 / 2 := by linarith
    push_cast
    rw [abs_sub_le_iff]; constructor <;> linarith

theorem moneyOfRat_eq_rne (q : ℚ) : moneyOfRat q = rne (100 * q) := by
  have hval : ((100 * q.num : ℤ) : ℚ) / ((q.den : ℤ) : ℚ) = 100 * q := by
    push_cast
    rw [mul_div_assoc, Rat.num_div_den]
  rw [moneyOfRat, rneDiv_eq_rne _ _ (by exact_mod_cast q.den_pos), hval]

/-- `Money.__add__`: exact `Decimal` addition of two cent-quantized
values followed by re-quantization, which is the identity on cents
(theorem `moneyAdd_spec`). -/
def moneyAdd (a b : ℤ) : ℤ := a + b

/-- `Money.__sub__` (see `moneySub_spec`). -/
def moneySub (a b : ℤ) : ℤ := a - b

/-- `Money.__neg__` (see `moneyNeg_spec`). -/
def moneyNeg (a : ℤ) : ℤ := -a

/-- `Money.__mul__` with an integer right operand (the only
multiplication the core performs: `self.amount * (len(state) - 1)` and
`quantized_result * by`); see `moneyMulNat_spec`. -/
def moneyMulNat (a : ℤ) (n : ℕ) : ℤ := a * n

/-- `Money.__truediv__` with a positive integer divisor (`self / by` in
`divide_with_no_rest`): the exact quotient `a / (100 n)` euros is
quantized to cents, giving `rneDiv a n`; see `moneyDivNat_spec`.
Division by zero raises in Python and is guarded at every call site. -/
def moneyDivNat (a : ℤ) (n : ℕ) : ℤ := rneDiv a n

theorem moneyAdd_spec (a b : ℤ) :
    moneyAdd a b = moneyOfRat ((a : ℚ) / 100 + (b : ℚ) / 100) := by
  have h : (100 : ℚ) * ((a : ℚ) / 100 + (b : ℚ) / 100) = ((a + b : ℤ) : ℚ) := by
    push_cast; ring
  rw [moneyOfRat_eq_rne, h, rne_intCast, moneyAdd]

theorem moneySub_spec (a b : ℤ) :
    moneySub a b = moneyOfRat ((a : ℚ) / 100 - (b : ℚ) / 100) := by
  have h : (100 : ℚ) * ((a : ℚ) / 100 - (b : ℚ) / 100) = ((a - b : ℤ) : ℚ) := by
    push_cast; ring
  rw [moneyOfRat_eq_rne, h, rne_intCast, moneySub]

theorem moneyNeg_spec (a : ℤ) : moneyNeg a = moneyOfRat (-((a : ℚ) / 100)) := by
  have h : (100 : ℚ) * (-((a : ℚ) / 100)) = ((-a : ℤ) : ℚ) := by push_cast; ring
  rw [moneyOfRat_eq_rne, h, rne_intCast, moneyNeg]

theorem moneyMulNat_spec (a : ℤ) (n : ℕ) :
    moneyMulNat a n = moneyOfRat ((a : ℚ) / 100 * n) := by
  have h : (100 : ℚ) * ((a : ℚ) / 100 * n) = ((a * n : ℤ) : ℚ) := by push_cast; ring
  rw [moneyOfRat_eq_rne, h, rne_intCast, moneyMulNat]

theorem moneyDivNat_spec (a : ℤ) (n : ℕ) (hn : n ≠ 0) :
    moneyDivNat a n = moneyOfRat ((a : ℚ) / 100 / n) := by
  have hq : (100 : ℚ) * ((a : ℚ) / 100 / n) = (a : ℚ) / ((n : ℤ) : ℚ) := by
    have : ((n : ℚ)) ≠ 0 := by exact_mod_cast hn
    field_simp
    ring
  rw [moneyOfRat_eq_rne, hq, moneyDivNat,
    rneDiv_eq_rne a n (by exact_mod_cast Nat.pos_of_ne_zero hn)]

/-- `Money.divide_with_no_rest(by)`: the rounded quotient, the rounding
remainder `self - quantized_result * by`, and the list whose head
absorbs the remainder.  The final `funcy.lmap(Money, ...)`
re-quantization is the identity on already-quantized values. -/
def divideWithNoRest (a : ℤ) (n : ℕ) : List ℤ :=
  let q := moneyDivNat a n
  let remainder := moneySub a (moneyMulNat q n)
  moneyAdd q remainder :: List.replicate (n - 1) q

example : moneyDivNat 1000 3 = 333 := by decide
example : divideWithNoRest 1000 3 = [334, 333, 333] := by decide
example : divideWithNoRest 2000 3 = [666, 667, 667] := by decide
example : divideWithNoRest 900 3 = [300, 300, 300] := by decide
example : moneyOfRat (mkRat 125 1000) = 12 := by decide
example : moneyOfRat (mkRat 135 1000) = 14 := by decide
example : moneyOfRat (mkRat 10123 1000) = 1012 := by decide

/-- `Account`: current `balance` and difference-to-target `diff`, both
`Money` (cents).  `positive` is true for the `PositiveAccount` subclass
used for the pot, whose balance may not go negative. -/
structure Account where
  balance : ℤ
  diff : ℤ
  positive : Bool
deriving DecidableEq, Repr

/-- `Account()`: fresh account with zero balance and diff. -/
def Account.new : Account := ⟨0, 0, false⟩

/-- `Account.is_settled`. -/
def Account.isSettled (a : Account) : Bool := a.diff = 0

/-- The exceptions the core raises, as a closed error type. -/
inductive Err
  | invalidName
  | duplicateAccount
  | unknownAccount
  | notSettled
  | reservedName
  | potAlreadyExists
  | noPot
  | negativeBalance
  | unbalanced
  | divisionByZero
deriving DecidableEq, Repr

/-- `LedgerState`: a `dict[Name, Account]` with insertion order, as an
association list. -/
abbrev LedgerState := List (String × Account)

/-- Dict read `self[name]`, as an option. -/
def lookupAccount (s : LedgerState) (n : String) : Option Account :=
  match s with
  | [] => none
  | p :: rest => if p.1 = n then some p.2 else lookupAccount rest n

/-- Dict write `self[name] = account`: replaces the existing binding in
place, appends a new binding at the end otherwise (Python dict update
semantics). -/
def setAccount (s : LedgerState) (n : String) (a : Account) : LedgerState :=
  match s with
  | [] => [(n, a)]
  | p :: rest => if p.1 = n then (n, a) :: rest else p :: setAccount rest n a

/-- Dict delete `del self[name]`. -/
def eraseAccount (s : LedgerState) (n : String) : LedgerState :=
  match s with
  | [] => []
  | p :: rest => if p.1 = n then rest else p :: eraseAccount rest n

/-- Outcome of a mutating primitive.  An error carries the state at the
moment the exception was raised: because `Ledger.apply` works on a
shallow copy sharing the `Account` objects with the committed record,
this partially-mutated state is what the committed record's accounts
show after a failure. -/
inductive PRes
  | ok (s : LedgerState)
  | err (e : Err) (s : LedgerState)
deriving DecidableEq, Repr

/-- Sequencing of mutating primitives: an exception aborts the rest. -/
def PRes.andThen (r : PRes) (f : LedgerState → PRes) : PRes :=
  match r with
  | .ok s => f s
  | .err e s => .err e s

/-- `Account.change_diff`: `self.diff += amount` (no validation). -/
def Account.changeDiff (a : Account) (amount : ℤ) : Account :=
  { a with diff := moneyAdd a.diff amount }

/-- `Account.change_balance` and the `PositiveAccount` override, which
first checks `-amount > self.balance` and raises instead of mutating. -/
def Account.changeBalance (a : Account) (amount : ℤ) : Option Account :=
  if a.positive ∧ a.balance < moneyNeg amount then none
  else some { a with balance := moneyAdd a.balance amount }

/-- `LedgerState.add_account`: validates the name, rejects duplicates,
inserts a fresh `Account`.  (The `isinstance(name, str)` check cannot
fail in the embedding, where names are strings by type.) -/
def LedgerState.addAccount (s : LedgerState) (n : String) : PRes :=
  if n = "" then .err .invalidName s
  else if (lookupAccount s n).isSome then .err .duplicateAccount s
  else .ok (s ++ [(n, Account.new)])

/-- `LedgerState.remove_account`: a missing name raises (`KeyError`
rebranded), a non-settled account raises, otherwise the entry is
deleted. -/
def LedgerState.removeAccount (s : LedgerState) (n : String) : PRes :=
  match lookupAccount s n with
  | none => .err .unknownAccount s
  | some a => if a.isSettled then .ok (eraseAccount s n) else .err .notSettled s

/-- `LedgerState.add_pot`: unconditionally writes the reserved name
(the pot-existence check lives in the `AddPot` operation). -/
def LedgerState.addPot (s : LedgerState) : LedgerState :=
  setAccount s "POT" ⟨0, 0, true⟩

/-- `LedgerState.has_pot`. -/
def LedgerState.hasPot (s : LedgerState) : Bool := (lookupAccount s "POT").isSome

/-- `LedgerState.change_balance`: missing name raises; the account's
(possibly guarded) mutator runs otherwise. -/
def LedgerState.changeBalance (s : LedgerState) (n : String) (amount : ℤ) : PRes :=
  match lookupAccount s n with
  | none => .err .unknownAccount s
  | some a =>
    match a.changeBalance amount with
    | none => .err .negativeBalance s
    | some a' => .ok (setAccount s n a')

/-- `LedgerState.change_diff`: missing name raises. -/
def LedgerState.changeDiff (s : LedgerState) (n : String) (amount : ℤ) : PRes :=
  match lookupAccount s n with
  | none => .err .unknownAccount s
  | some a => .ok (setAccount s n (a.changeDiff amount))

/-- Sum of all accounts' `diff` values (`sum` of exact decimals). -/
def sumDiff (s : LedgerState) : ℤ := (s.map (fun p => p.2.diff)).sum

/-- Sum of all accounts' `balance` values (not computed by the source;
used to state what removal does to the total balance). -/
def sumBalance (s : LedgerState) : ℤ := (s.map (fun p => p.2.balance)).sum

/-- `LedgerState.check_equilibrium`: raises unless the diffs sum to
zero. -/
def LedgerState.checkEquilibrium (s : LedgerState) : Option Err :=
  if sumDiff s = 0 then none else some .unbalanced

/-- Keys of the dict with the pot removed: the `funcy.lremove("POT",
self.keys())` expansion used for an unspecified creditor/debitor
group. -/
def nonPotNames (s : LedgerState) : List String :=
  (s.map (fun p => p.1)).filter (fun n => n ≠ "POT")

/-- One `change_diff` per `(name, share)` pair, in order; the loop stops
at the first exception. -/
def applyDiffs (s : LedgerState) (pairs : List (String × ℤ)) : PRes :=
  match pairs with
  | [] => .ok s
  | (n, c) :: rest => (s.changeDiff n c).andThen (fun s' => applyDiffs s' rest)

/-- `LedgerState.create_debt`: resolve the creditor and debitor groups
(`None` means all non-pot accounts, resolved against the state before
any mutation), split the amount over each group with
`divide_with_no_rest`, credit the creditors' diffs and debit the
debitors' diffs.  An empty group makes `divide_with_no_rest` divide by
zero: the creditors' split is computed before the credit loop runs, the
debitors' split only after it. -/
def LedgerState.createDebt (s : LedgerState) (amount : ℤ)
    (creditors debitors : Option (List String)) : PRes :=
  let cs := creditors.getD (nonPotNames s)
  let ds := debitors.getD (nonPotNames s)
  if cs.length = 0 then .err .divisionByZero s
  else
    (applyDiffs s (cs.zip (divideWithNoRest amount cs.length))).andThen (fun s1 =>
      if ds.length = 0 then .err .divisionByZero s1
      else applyDiffs s1 (ds.zip ((divideWithNoRest amount ds.length).map moneyNeg)))

/-- `LedgerState.internal_transfer`: move balance from sender to
receiver and the expectation the other way. -/
def LedgerState.internalTransfer (s : LedgerState) (amount : ℤ)
    (sender receiver : String) : PRes :=
  (s.changeBalance sender (moneyNeg amount)).andThen (fun s1 =>
    (s1.changeBalance receiver amount).andThen (fun s2 =>
      (s2.changeDiff sender amount).andThen (fun s3 =>
        s3.changeDiff receiver (moneyNeg amount))))

/-- The closed set of operations
(`src/collective_accounting/operations.py`). -/
inductive Op
  | addAccount (name : String)
  | removeAccount (name : String)
  | addPot
  | debt (amount : ℤ) (creditor debitor subject : String)
  | transferDebt (amount : ℤ) (oldDebitor newDebitor : String)
  | requestContribution (amount : ℤ)
  | sharedExpense (amount : ℤ) (payer subject : String)
  | transfer (amount : ℤ) (sender receiver : String)
  | reimburse (amount : ℤ) (receiver : String)
  | paysContribution (amount : ℤ) (sender : String)
deriving DecidableEq, Repr

/-- `Operation.apply_to(state)` for each variant. -/
def applyTo (op : Op) (s : LedgerState) : PRes :=
  match op with
  | .addAccount n =>
    if n = "POT" then .err .reservedName s else s.addAccount n
  | .removeAccount n => s.removeAccount n
  | .addPot =>
    if s.hasPot then .err .potAlreadyExists s else .ok s.addPot
  | .debt amount creditor debitor _ =>
    s.createDebt amount (some [creditor]) (some [debitor])
  | .transferDebt amount oldDebitor newDebitor =>
    s.createDebt amount (some [oldDebitor]) (some [newDebitor])
  | .requestContribution amount =>
    if !s.hasPot then .err .noPot s
    else s.createDebt (moneyMulNat amount (s.length - 1)) (some ["POT"]) none
  | .sharedExpense amount payer _ =>
    (s.changeBalance payer (moneyNeg amount)).andThen (fun s1 =>
      if s1.hasPot then s1.createDebt amount (some [payer]) (some ["POT"])
      else s1.createDebt amount (some [payer]) none)
  | .transfer amount sender receiver => s.internalTransfer amount sender receiver
  | .reimburse amount receiver =>
    if !s.hasPot then .err .noPot s
    else s.internalTransfer amount "POT" receiver
  | .paysContribution amount sender =>
    if !s.hasPot then .err .noPot s
    else s.internalTransfer amount sender "POT"

/-- `LedgerRecord`: an operation and the state resulting from it. -/
structure LedgerRecord where
  state : LedgerState
  op : Op
deriving DecidableEq, Repr

/-- `Ledger`: the append-only record sequence. -/
structure Ledger where
  records : List LedgerRecord
deriving DecidableEq, Repr

/-- `Ledger.state`: the last record's state, or empty. -/
def Ledger.state (l : Ledger) : LedgerState :=
  match l.records.getLast? with
  | none => []
  | some r => r.state

/-- `Ledger.operations`. -/
def Ledger.operations (l : Ledger) : List Op := l.records.map (fun r => r.op)

/-- The committed record's view of the accounts after the working copy
was mutated: the committed dict keeps its own keys, but every key it
shares with the copy points at the same (now mutated) `Account` object.
Keys the copy added are invisible; keys the copy deleted keep their old
object. -/
def mergeShared (old new : LedgerState) : LedgerState :=
  old.map (fun p =>
    match lookupAccount new p.1 with
    | some a => (p.1, a)
    | none => p)

/-- Replace the last record's state in place (the aliasing view after a
failed application); a ledger with no records returns a fresh empty
state on every `state` call, so there is nothing to alias. -/
def Ledger.overwriteLast (l : Ledger) (s : LedgerState) : Ledger :=
  match l.records.getLast? with
  | none => l
  | some r => ⟨l.records.dropLast ++ [⟨s, r.op⟩]⟩

/-- `Ledger.apply(operation)`: run `apply_to` on a shallow copy of the
current state, check equilibrium, and append a record only when both
succeed.  On failure no record is appended and the error propagates,
but the account mutations performed before the failure remain visible
through the last committed record (shallow-copy aliasing). -/
def Ledger.apply (l : Ledger) (op : Op) : Ledger × Option Err :=
  match applyTo op l.state with
  | .ok s' =>
    match s'.checkEquilibrium with
    | none => (⟨l.records ++ [⟨s', op⟩]⟩, none)
    | some e => (l.overwriteLast (mergeShared l.state s'), some e)
  | .err e sp => (l.overwriteLast (mergeShared l.state sp), some e)

/-- The ledgers reachable from the empty ledger by sequences of
successfully applied operations. -/
inductive Reachable : Ledger → Prop
  | base : Reachable ⟨[]⟩
  | step {l : Ledger} {op : Op} {l' : Ledger} :
      Reachable l → l.apply op = (l', none) → Reachable l'

/-- Replay a sequence of operations into a fresh empty ledger, aborting
on the first error (`Ledger.load_from_file` after deserialization). -/
def replayOps (ops : List Op) : Except Err Ledger :=
  ops.foldlM
    (fun l op =>
      match l.apply op with
      | (l', none) => Except.ok l'
      | (_, some e) => Except.error e)
    ⟨[]⟩

/-- Names with diffs of the final state reached by a replay, plus the
sum of the diffs, for stating concrete scenarios. -/
def scenarioDiffs (ops : List Op) : Option (List (String × ℤ) × ℤ) :=
  match replayOps ops with
  | .ok l => some (l.state.map (fun p => (p.1, p.2.diff)), sumDiff l.state)
  | .error _ => none

example :
    scenarioDiffs [Op.addAccount "antoine", Op.addAccount "baptiste",
      Op.addAccount "renan", Op.sharedExpense 12500 "antoine" "potatoes"] =
    some ([("antoine", 8334), ("baptiste", -4167), ("renan", -4167)], 0) := by decide

-- Helper lemmas about `Ledger`.

theorem apply_ok (l : Ledger) (op : Op) (l' : Ledger)
    (h : l.apply op = (l', none)) :
    ∃ s', applyTo op l.state = .ok s' ∧ s'.checkEquilibrium = none ∧
      l' = ⟨l.records ++ [⟨s', op⟩]⟩ := by
  unfold Ledger.apply at h
  cases happ : applyTo op l.state with
  | ok s' =>
    rw [happ] at h
    dsimp only at h
    cases heq : s'.checkEquilibrium with
    | none =>
      rw [heq] at h
      dsimp only at h
      exact ⟨s', rfl, heq, by injection h with h1 h2; exact h1.symm⟩
    | some e =>
      rw [heq] at h
      dsimp only at h
      injection h with h1 h2
      exact absurd h2.symm (by simp)
  | err e sp =>
    rw [happ] at h
    dsimp only at h
    injection h with h1 h2
    exact absurd h2.symm (by simp)

theorem state_mk_concat (rs : List LedgerRecord) (r : LedgerRecord) :
    Ledger.state ⟨rs ++ [r]⟩ = r.state := by
  simp [Ledger.state]

theorem operations_mk_concat (rs : List LedgerRecord) (r : LedgerRecord) :
    Ledger.operations ⟨rs ++ [r]⟩ = Ledger.operations ⟨rs⟩ ++ [r.op] := by
  simp [Ledger.operations]

theorem overwriteLast_concat (rs : List LedgerRecord) (r : LedgerRecord) (s : LedgerState) :
    Ledger.overwriteLast ⟨rs ++ [r]⟩ s = ⟨rs ++ [⟨s, r.op⟩]⟩ := by
  simp [Ledger.overwriteLast]

theorem checkEquilibrium_none (s : LedgerState)
    (h : s.checkEquilibrium = none) : sumDiff s = 0 := by
  by_cases hz : sumDiff s = 0
  · exact hz
  · rw [LedgerState.checkEquilibrium, if_neg hz] at h
    exact absurd h (by simp)

/-- C1 — Global equilibrium invariant: every ledger reachable by a
sequence of successfully applied operations has diffs summing to
exactly zero after every single operation (`Ledger.apply` appends a
record only when `check_equilibrium` passes on the fresh state). -/
theorem equilibrium_invariant (l : Ledger) (h : Reachable l) :
    sumDiff l.state = 0 := by
  induction h with
  | base => rfl
  | step hR happ ih =>
    obtain ⟨s', _, heq, rfl⟩ := apply_ok _ _ _ happ
    rw [state_mk_concat]
    exact checkEquilibrium_none _ heq

/-- C1 witness: a concrete reachable one-record ledger, to which the
invariant theorem applies. -/
theorem equilibrium_invariant_witness :
    Reachable (⟨[⟨[("a", ⟨0, 0, false⟩)], Op.addAccount "a"⟩]⟩ : Ledger) ∧
    sumDiff (Ledger.state ⟨[⟨[("a", ⟨0, 0, false⟩)], Op.addAccount "a"⟩]⟩) = 0 :=
  ⟨@Reachable.step ⟨[]⟩ (Op.addAccount "a") _ Reachable.base (by decide),
    equilibrium_invariant _
      (@Reachable.step ⟨[]⟩ (Op.addAccount "a") _ Reachable.base (by decide))⟩

/-- C3 — Split exactness: for `n ≥ 1`, `divide_with_no_rest(n)` returns
exactly `n` values summing exactly to the input; every element after the
first is the rounded quotient `Money(m / n)` and the first is that
quotient plus the rounding remainder `m - n * quotient`. -/
theorem divide_with_no_rest_exact (m : ℤ) (n : ℕ) (h : 1 ≤ n) :
    (divideWithNoRest m n).length = n ∧
    (divideWithNoRest m n).sum = m ∧
    (divideWithNoRest m n).tail = List.replicate (n - 1) (moneyDivNat m n) ∧
    (divideWithNoRest m n).head? =
      some (moneyDivNat m n + (m - n * moneyDivNat m n)) := by
  unfold divideWithNoRest
  simp only [moneyAdd, moneySub, moneyMulNat]
  refine ⟨?_, ?_, rfl, ?_⟩
  · simp only [List.length_cons, List.length_replicate]
    omega
  · rw [List.sum_cons, List.sum_replicate, nsmul_eq_mul]
    have hc : ((n - 1 : ℕ) : ℤ) = (n : ℤ) - 1 := by
      rw [Nat.cast_sub h]
      norm_num
    rw [hc]
    ring
  · rw [List.head?_cons]
    congr 1
    ring

/-- C3 witness: splitting 10.00 into three parts. -/
theorem divide_with_no_rest_exact_witness :
    (1 ≤ 3) ∧
    ((divideWithNoRest 1000 3).length = 3 ∧
      (divideWithNoRest 1000 3).sum = 1000 ∧
      (divideWithNoRest 1000 3).tail = List.replicate (3 - 1) (moneyDivNat 1000 3) ∧
      (divideWithNoRest 1000 3).head? =
        some (moneyDivNat 1000 3 + (1000 - 3 * moneyDivNat 1000 3))) :=
  ⟨by decide, divide_with_no_rest_exact 1000 3 (by decide)⟩

/-- C8 — The rounding rule is half-even: `Money` construction and every
arithmetic operator re-quantize through `moneyOfRat`, the cent
quantization with ties to even, and on the tie inputs 0.125, 0.135,
0.25 / 2 and 0.27 / 2 the result is the even cent (0.12, 0.14, 0.12,
0.14), not the half-away-from-zero one. -/
theorem money_rounding_half_even :
    (∀ a b : ℤ, moneyAdd a b = moneyOfRat ((a : ℚ) / 100 + (b : ℚ) / 100)) ∧
    (∀ a b : ℤ, moneySub a b = moneyOfRat ((a : ℚ) / 100 - (b : ℚ) / 100)) ∧
    (∀ a : ℤ, moneyNeg a = moneyOfRat (-((a : ℚ) / 100))) ∧
    (∀ (a : ℤ) (n : ℕ), moneyMulNat a n = moneyOfRat ((a : ℚ) / 100 * n)) ∧
    (∀ (a : ℤ) (n : ℕ), moneyDivNat a (n + 1) = moneyOfRat ((a : ℚ) / 100 / (n + 1))) ∧
    moneyOfRat (mkRat 125 1000) = 12 ∧ moneyOfRat (mkRat 135 1000) = 14 ∧
    moneyDivNat 25 2 = 12 ∧ moneyDivNat 27 2 = 14 :=
  ⟨moneyAdd_spec, moneySub_spec, moneyNeg_spec, moneyMulNat_spec,
    fun a n => by
      have := moneyDivNat_spec a (n + 1) (Nat.succ_ne_zero n)
      simpa using this,
    by decide, by decide, by decide, by decide⟩

/-- C7 — PositiveAccount guard: for an account with the pot's
non-negative constraint, `change_balance(amount)` fails exactly when
`balance + amount < 0`, leaving the state untouched (the check precedes
any mutation); otherwise — in particular when the new balance is
exactly zero — it succeeds and only that balance changes. -/
theorem positive_account_guard (s : LedgerState) (n : String) (b d amt : ℤ)
    (h : lookupAccount s n = some ⟨b, d, true⟩) :
    (s.changeBalance n amt = .err .negativeBalance s ↔ b + amt < 0) ∧
    (0 ≤ b + amt → s.changeBalance n amt = .ok (setAccount s n ⟨b + amt, d, true⟩)) := by
  have hcond : (((⟨b, d, true⟩ : Account).positive ∧
      (⟨b, d, true⟩ : Account).balance < moneyNeg amt) ↔ b + amt < 0) := by
    simp only [moneyNeg]
    constructor
    · rintro ⟨-, hb⟩
      omega
    · intro hb
      exact ⟨by trivial, by omega⟩
  unfold LedgerState.changeBalance
  rw [h]
  dsimp only
  unfold Account.changeBalance
  by_cases hc : b + amt < 0
  · rw [if_pos (hcond.mpr hc)]
    exact ⟨⟨fun _ => hc, fun _ => rfl⟩, fun h0 => absurd hc (by omega)⟩
  · rw [if_neg (fun hx => hc (hcond.mp hx))]
    refine ⟨⟨fun he => absurd he (by simp), fun hlt => absurd hlt hc⟩, fun h0 => rfl⟩

/-- C7 witness: draining the pot to exactly zero succeeds; the guard
characterization applies at balance 5.00 and amount −5.00. -/
theorem positive_account_guard_witness :
    (lookupAccount [("POT", ⟨500, 0, true⟩)] "POT" = some ⟨500, 0, true⟩) ∧
    ((LedgerState.changeBalance [("POT", ⟨500, 0, true⟩)] "POT" (-500) =
        .err .negativeBalance [("POT", ⟨500, 0, true⟩)] ↔ 500 + (-500) < 0) ∧
      (0 ≤ 500 + (-500) →
        LedgerState.changeBalance [("POT", ⟨500, 0, true⟩)] "POT" (-500) =
          .ok (setAccount [("POT", ⟨500, 0, true⟩)] "POT" ⟨500 + (-500), 0, true⟩))) :=
  ⟨by decide, positive_account_guard [("POT", ⟨500, 0, true⟩)] "POT" 500 0 (-500) (by decide)⟩

-- The committed record's aliasing view after a failure.

theorem lookup_mergeShared (old s : LedgerState) (x : String) :
    lookupAccount (mergeShared old s) x =
      match lookupAccount old x with
      | none => none
      | some a => (lookupAccount s x).getD a := by
  induction old with
  | nil => rfl
  | cons p rest ih =>
    by_cases hx : p.1 = x
    · subst hx
      cases hls : lookupAccount s p.1 <;>
        simp [mergeShared, lookupAccount, hls]
    · cases hls : lookupAccount s p.1 <;>
        simpa [mergeShared, lookupAccount, hls, hx] using ih

/-- C5 — Pot uniqueness: applying `AddPot` to a ledger whose state
already has a pot fails with the conflict error, appends nothing, and
leaves the pot account (and the operation history) unchanged. -/
theorem add_pot_conflict (l : Ledger) (h : l.state.hasPot = true) :
    (l.apply Op.addPot).2 = some Err.potAlreadyExists ∧
    lookupAccount (l.apply Op.addPot).1.state "POT" = lookupAccount l.state "POT" ∧
    (l.apply Op.addPot).1.operations = l.operations := by
  have happ : applyTo Op.addPot l.state = .err .potAlreadyExists l.state := by
    unfold applyTo
    rw [if_pos h]
  rcases List.eq_nil_or_concat l.records with hnil | ⟨rs, r, hcat⟩
  · exfalso
    have hstate : l.state = [] := by
      cases l
      simp_all [Ledger.state]
    rw [hstate] at h
    exact absurd h (by decide)
  · have hrec : l = ⟨rs ++ [r]⟩ := by cases l; simp_all
    subst hrec
    unfold Ledger.apply
    rw [happ]
    dsimp only
    rw [overwriteLast_concat]
    refine ⟨rfl, ?_, ?_⟩
    · rw [state_mk_concat]
      dsimp only
      rw [lookup_mergeShared]
      cases hP : lookupAccount (Ledger.state ⟨rs ++ [r]⟩) "POT" with
      | none =>
        rw [LedgerState.hasPot, hP] at h
      | some a => simp [hP]
    · simp [Ledger.operations]

/-- C5 witness: a one-record ledger that already holds a pot; the second
`AddPot` fails with the conflict error and the pot is intact. -/
theorem add_pot_conflict_witness :
    ((Ledger.state ⟨[⟨[("POT", ⟨0, 0, true⟩)], Op.addPot⟩]⟩).hasPot = true) ∧
    ((Ledger.apply ⟨[⟨[("POT", ⟨0, 0, true⟩)], Op.addPot⟩]⟩ Op.addPot).2 =
        some Err.potAlreadyExists ∧
      lookupAccount (Ledger.apply ⟨[⟨[("POT", ⟨0, 0, true⟩)], Op.addPot⟩]⟩ Op.addPot).1.state
          "POT" =
        lookupAccount (Ledger.state ⟨[⟨[("POT", ⟨0, 0, true⟩)], Op.addPot⟩]⟩) "POT" ∧
      (Ledger.apply ⟨[⟨[("POT", ⟨0, 0, true⟩)], Op.addPot⟩]⟩ Op.addPot).1.operations =
        Ledger.operations ⟨[⟨[("POT", ⟨0, 0, true⟩)], Op.addPot⟩]⟩) :=
  ⟨by decide, add_pot_conflict ⟨[⟨[("POT", ⟨0, 0, true⟩)], Op.addPot⟩]⟩ (by decide)⟩

/-- Names with balances, for stating balance-frame properties. -/
def balancesOf (s : LedgerState) : List (String × ℤ) :=
  s.map (fun p => (p.1, p.2.balance))

theorem balancesOf_setAccount (s : LedgerState) (n : String) (a a' : Account)
    (hl : lookupAccount s n = some a) (hb : a'.balance = a.balance) :
    balancesOf (setAccount s n a') = balancesOf s := by
  induction s with
  | nil => simp [lookupAccount] at hl
  | cons p rest ih =>
    by_cases hx : p.1 = n
    · rw [lookupAccount, if_pos hx] at hl
      injection hl with hl
      subst hl
      simp [setAccount, balancesOf, hx, hb]
    · rw [lookupAccount, if_neg hx] at hl
      simp [setAccount, balancesOf, hx]
      exact ih hl

theorem balancesOf_changeDiff (s : LedgerState) (n : String) (amt : ℤ) (s' : LedgerState)
    (h : s.changeDiff n amt = .ok s') : balancesOf s' = balancesOf s := by
  unfold LedgerState.changeDiff at h
  cases hl : lookupAccount s n with
  | none =>
    rw [hl] at h
    exact absurd h (by simp)
  | some a =>
    rw [hl] at h
    injection h with h
    subst h
    exact balancesOf_setAccount s n a _ hl rfl

theorem balancesOf_applyDiffs (pairs : List (String × ℤ)) (s s' : LedgerState)
    (h : applyDiffs s pairs = .ok s') : balancesOf s' = balancesOf s := by
  induction pairs generalizing s with
  | nil =>
    unfold applyDiffs at h
    injection h with h
    subst h
    rfl
  | cons pc rest ih =>
    obtain ⟨n, c⟩ := pc
    unfold applyDiffs at h
    cases hc : s.changeDiff n c with
    | ok s1 =>
      rw [hc] at h
      dsimp only [PRes.andThen] at h
      exact (ih s1 h).trans (balancesOf_changeDiff s n c s1 hc)
    | err e sp =>
      rw [hc] at h
      exact absurd h (by simp [PRes.andThen])

/-- C9 — `create_debt` is balance-frame-preserving: whenever it
succeeds it only redistributes `diff` values; every account keeps its
name, position and `balance`. -/
theorem create_debt_balance_frame (s : LedgerState) (amount : ℤ)
    (creditors debitors : Option (List String)) (s' : LedgerState)
    (h : s.createDebt amount creditors debitors = .ok s') :
    balancesOf s' = balancesOf s := by
  unfold LedgerState.createDebt at h
  by_cases hc : (creditors.getD (nonPotNames s)).length = 0
  · rw [if_pos hc] at h
    exact absurd h (by simp)
  · rw [if_neg hc] at h
    cases h1 : applyDiffs s
        ((creditors.getD (nonPotNames s)).zip
          (divideWithNoRest amount (creditors.getD (nonPotNames s)).length)) with
    | ok s1 =>
      rw [h1] at h
      dsimp only [PRes.andThen] at h
      by_cases hd : (debitors.getD (nonPotNames s)).length = 0
      · rw [if_pos hd] at h
        exact absurd h (by simp)
      · rw [if_neg hd] at h
        exact (balancesOf_applyDiffs _ s1 s' h).trans (balancesOf_applyDiffs _ s s1 h1)
    | err e sp =>
      rw [h1] at h
      exact absurd h (by simp [PRes.andThen])

/-- C9 witness: a concrete successful `create_debt` between two
accounts leaves both balances as they were. -/
theorem create_debt_balance_frame_witness :
    (LedgerState.createDebt [("a", ⟨500, 0, false⟩), ("b", ⟨0, 0, false⟩)] 1000
        (some ["a"]) (some ["b"]) =
      .ok [("a", ⟨500, 1000, false⟩), ("b", ⟨0, -1000, false⟩)]) ∧
    balancesOf [("a", ⟨500, 1000, false⟩), ("b", ⟨0, -1000, false⟩)] =
      balancesOf [("a", ⟨500, 0, false⟩), ("b", ⟨0, 0, false⟩)] :=
  ⟨by decide,
    create_debt_balance_frame [("a", ⟨500, 0, false⟩), ("b", ⟨0, 0, false⟩)] 1000
      (some ["a"]) (some ["b"]) _ (by decide)⟩

theorem sumBalance_erase (s : LedgerState) (n : String) (a : Account)
    (hl : lookupAccount s n = some a) :
    sumBalance (eraseAccount s n) = sumBalance s - a.balance := by
  induction s with
  | nil => simp [lookupAccount] at hl
  | cons p rest ih =>
    by_cases hx : p.1 = n
    · rw [lookupAccount, if_pos hx] at hl
      injection hl with hl
      subst hl
      simp [eraseAccount, sumBalance, hx]
    · rw [lookupAccount, if_neg hx] at hl
      simp only [eraseAccount, if_neg hx, sumBalance, List.map_cons, List.sum_cons]
      have := ih hl
      rw [sumBalance] at this
      rw [this, sumBalance]
      ring

/-- C10 — Removal ignores balance: an existing account with `diff = 0`
is removed whatever its balance is, and that balance simply vanishes
from the state, so the total of all balances drops by exactly the
removed account's balance. -/
theorem remove_account_ignores_balance (s : LedgerState) (n : String) (a : Account)
    (hl : lookupAccount s n = some a) (hd : a.diff = 0) :
    s.removeAccount n = .ok (eraseAccount s n) ∧
    sumBalance (eraseAccount s n) = sumBalance s - a.balance := by
  constructor
  · unfold LedgerState.removeAccount
    rw [hl]
    have hset : a.isSettled = true := by
      rw [Account.isSettled, hd]
      decide
    dsimp only
    rw [if_pos hset]
  · exact sumBalance_erase s n a hl

/-- C10 witness: an account holding 7.77 with zero diff is removed and
the balance total drops from 7.77 to 0. -/
theorem remove_account_ignores_balance_witness :
    (lookupAccount [("rich", ⟨777, 0, false⟩)] "rich" = some ⟨777, 0, false⟩) ∧
    ((Account.mk 777 0 false).diff = 0) ∧
    (LedgerState.removeAccount [("rich", ⟨777, 0, false⟩)] "rich" =
        .ok (eraseAccount [("rich", ⟨777, 0, false⟩)] "rich") ∧
      sumBalance (eraseAccount [("rich", ⟨777, 0, false⟩)] "rich") =
        sumBalance [("rich", ⟨777, 0, false⟩)] - (Account.mk 777 0 false).balance) :=
  ⟨by decide, by decide,
    remove_account_ignores_balance [("rich", ⟨777, 0, false⟩)] "rich" ⟨777, 0, false⟩
      (by decide) (by decide)⟩

/-- C2 — Rollback is not atomic: `Ledger.apply` copies the committed
state with a shallow `copy`, so the `Account` objects are shared with
the last committed record.  Applying `Transfer(5.00, "a", "b")` to a
ledger that only has account `"a"` debits `a`'s balance and then raises
on the unknown receiver: no record is appended and the operation list
is unchanged, but the committed state now shows `a` at balance −5.00 —
`ledger.state` is *not* identical before and after the failed call. -/
theorem rollback_not_atomic :
    (Ledger.apply ⟨[]⟩ (Op.addAccount "a") =
      (⟨[⟨[("a", ⟨0, 0, false⟩)], Op.addAccount "a"⟩]⟩, none)) ∧
    ((Ledger.apply ⟨[⟨[("a", ⟨0, 0, false⟩)], Op.addAccount "a"⟩]⟩
        (Op.transfer 500 "a" "b")).2 = some Err.unknownAccount) ∧
    ((Ledger.apply ⟨[⟨[("a", ⟨0, 0, false⟩)], Op.addAccount "a"⟩]⟩
        (Op.transfer 500 "a" "b")).1.operations =
      Ledger.operations ⟨[⟨[("a", ⟨0, 0, false⟩)], Op.addAccount "a"⟩]⟩) ∧
    ((Ledger.apply ⟨[⟨[("a", ⟨0, 0, false⟩)], Op.addAccount "a"⟩]⟩
        (Op.transfer 500 "a" "b")).1.records.length =
      (Ledger.mk [⟨[("a", ⟨0, 0, false⟩)], Op.addAccount "a"⟩]).records.length) ∧
    ((Ledger.apply ⟨[⟨[("a", ⟨0, 0, false⟩)], Op.addAccount "a"⟩]⟩
        (Op.transfer 500 "a" "b")).1.state ≠
      Ledger.state ⟨[⟨[("a", ⟨0, 0, false⟩)], Op.addAccount "a"⟩]⟩) ∧
    (lookupAccount (Ledger.apply ⟨[⟨[("a", ⟨0, 0, false⟩)], Op.addAccount "a"⟩]⟩
        (Op.transfer 500 "a" "b")).1.state "a" = some ⟨-500, 0, false⟩) := by
  refine ⟨by decide, by decide, by decide, by decide, by decide, by decide⟩

/-- C4 — Shared-expense scenario without a pot: three zero accounts,
then `record_shared_expense(125, "antoine", "potatoes")`; antoine's
diff becomes +83.34, baptiste's and renan's −41.67 each (the first
debit share absorbs the rounding remainder of the 3-way split of
125.00), and the diffs sum to zero. -/
theorem shared_expense_scenario :
    scenarioDiffs [Op.addAccount "antoine", Op.addAccount "baptiste",
      Op.addAccount "renan", Op.sharedExpense 12500 "antoine" "potatoes"] =
    some ([("antoine", 8334), ("baptiste", -4167), ("renan", -4167)], 0) := by
  decide


/-- Rounding of a positive rational to the nearest IEEE-754 binary64
value (round to nearest, ties to even): scale into `[2^52, 2^53)`,
round the 53-bit significand with `rne`, scale back.  Subnormals and
overflow to infinity are not modelled: every nonzero cent value is far
inside the normal range, and the theorems stay there. -/
def dblPos (q : ℚ) : ℚ :=
  (rne (q / 2 ^ (Int.log 2 q - 52)) : ℚ) * 2 ^ (Int.log 2 q - 52)

/-- `float(...)` of an exact decimal value: the nearest binary64, as an
exact rational (`money_to_float` in `src/lausa/io.py`, composed with
the exact value of the resulting Python float). -/
def dbl (q : ℚ) : ℚ :=
  if q = 0 then 0
  else if 0 < q then dblPos q
  else -dblPos (-q)

theorem dblPos_err (q : ℚ) (hq : 0 < q) : |dblPos q - q| ≤ q / 2 ^ (53 : ℕ) := by
  set e : ℤ := Int.log 2 q - 52 with he
  have h2e : (0 : ℚ) < (2 : ℚ) ^ e := zpow_pos (by norm_num) e
  have hlog : ((2 : ℕ) : ℚ) ^ (Int.log 2 q) ≤ q := Int.zpow_log_le_self (by norm_num) hq
  have hlog' : (2 : ℚ) ^ (Int.log 2 q) ≤ q := by exact_mod_cast hlog
  have h2elog : (2 : ℚ) ^ e ≤ q / 2 ^ (52 : ℕ) := by
    rw [he, zpow_sub₀ (by norm_num : (2 : ℚ) ≠ 0)]
    have h52 : ((2 : ℚ) ^ ((52 : ℕ) : ℤ)) = (2 : ℚ) ^ (52 : ℕ) := zpow_natCast 2 52
    rw [show ((52 : ℤ)) = ((52 : ℕ) : ℤ) by norm_num, h52]
    apply div_le_div_of_nonneg_right hlog' (by positivity)
  have hx : dblPos q - q = ((rne (q / (2 : ℚ) ^ e) : ℚ) - q / (2 : ℚ) ^ e) * (2 : ℚ) ^ e := by
    rw [dblPos, ← he]
    field_simp
  calc |dblPos q - q|
      = |(rne (q / (2 : ℚ) ^ e) : ℚ) - q / (2 : ℚ) ^ e| * (2 : ℚ) ^ e := by
        rw [hx, abs_mul, abs_of_pos h2e]
    _ ≤ (1 / 2) * (2 : ℚ) ^ e := by
        exact mul_le_mul_of_nonneg_right (abs_rne_sub_le _) (le_of_lt h2e)
    _ ≤ (1 / 2) * (q / 2 ^ (52 : ℕ)) := by
        exact mul_le_mul_of_nonneg_left h2elog (by norm_num)
    _ = q / 2 ^ (53 : ℕ) := by
        rw [pow_succ]
        ring

theorem dbl_err (q : ℚ) : |dbl q - q| ≤ |q| / 2 ^ (53 : ℕ) := by
  rw [dbl]
  split_ifs with h0 hpos
  · simp [h0]
  · rw [abs_of_pos hpos]
    exact dblPos_err q hpos
  · have hneg : 0 < -q := by
      rcases lt_trichotomy q 0 with h | h | h
      · linarith
      · exact absurd h h0
      · exact absurd h hpos
    have hb := dblPos_err (-q) hneg
    rw [abs_of_neg (by linarith : q < 0)]
    calc |-dblPos (-q) - q| = |dblPos (-q) - (-q)| := by
          rw [show -dblPos (-q) - q = -(dblPos (-q) - (-q)) by ring, abs_neg]
      _ ≤ (-q) / 2 ^ (53 : ℕ) := hb

/-- `money_to_float`: a `Money` of `k` cents serializes as the float
nearest to `k / 100`. -/
def moneyToFloat (k : ℤ) : ℚ := dbl ((k : ℚ) / 100)

/-- `number_to_money`: a numeric field deserializes through the `Money`
constructor, re-quantizing to cents. -/
def numberToMoney (q : ℚ) : ℤ := moneyOfRat q

/-- A cent value below `2^52` in magnitude survives the float
round-trip exactly: the binary64 relative error `2^-53` is below half a
cent there. -/
theorem money_float_roundtrip (k : ℤ) (h : |k| < 2 ^ 52) :
    numberToMoney (moneyToFloat k) = k := by
  rw [numberToMoney, moneyOfRat_eq_rne, moneyToFloat]
  apply rne_eq_of_close
  have hd := dbl_err ((k : ℚ) / 100)
  have habs : |(k : ℚ) / 100| = |(k : ℚ)| / 100 := by
    rw [abs_div]
    norm_num
  have hk : |(k : ℚ)| < 2 ^ 52 := by
    rw [← Int.cast_abs]
    exact_mod_cast h
  calc |(100 : ℚ) * dbl ((k : ℚ) / 100) - k|
      = |(100 : ℚ)| * |dbl ((k : ℚ) / 100) - (k : ℚ) / 100| := by
        rw [← abs_mul]
        congr 1
        ring
    _ = 100 * |dbl ((k : ℚ) / 100) - (k : ℚ) / 100| := by norm_num
    _ ≤ 100 * (|(k : ℚ) / 100| / 2 ^ (53 : ℕ)) := mul_le_mul_of_nonneg_left hd (by norm_num)
    _ = |(k : ℚ)| / 2 ^ (53 : ℕ) := by
        rw [habs]
        ring
    _ < 1 / 2 := by
        rw [div_lt_iff₀ (by positivity)]
        calc |(k : ℚ)| < 2 ^ 52 := hk
          _ = 1 / 2 * 2 ^ (53 : ℕ) := by norm_num

/-- A field value of a serialized operation record: a plain numeric
(all `Money` fields become floats) or a string. -/
inductive Val
  | num (q : ℚ)
  | str (t : String)
deriving DecidableEq, Repr

/-- `operation_as_dict` (`src/lausa/io.py`): the class name plus the
dataclass fields in declaration order, `Money` values through
`money_to_float`. -/
def opAsDict : Op → String × List (String × Val)
  | .addAccount n => ("AddAccount", [("name", .str n)])
  | .removeAccount n => ("RemoveAccount", [("name", .str n)])
  | .addPot => ("AddPot", [])
  | .debt a c d subj =>
    ("Debt", [("amount", .num (moneyToFloat a)), ("creditor", .str c),
      ("debitor", .str d), ("subject", .str subj)])
  | .transferDebt a o nw =>
    ("TransferDebt", [("amount", .num (moneyToFloat a)), ("old_debitor", .str o),
      ("new_debitor", .str nw)])
  | .requestContribution a =>
    ("RequestContribution", [("amount", .num (moneyToFloat a))])
  | .sharedExpense a p subj =>
    ("SharedExpense", [("amount", .num (moneyToFloat a)), ("payer", .str p),
      ("subject", .str subj)])
  | .transfer a sd rc =>
    ("Transfer", [("amount", .num (moneyToFloat a)), ("sender", .str sd),
      ("receiver", .str rc)])
  | .reimburse a rc =>
    ("Reimburse", [("amount", .num (moneyToFloat a)), ("receiver", .str rc)])
  | .paysContribution a sd =>
    ("PaysContribution", [("amount", .num (moneyToFloat a)), ("sender", .str sd)])

/-- `load_operation_from_dict`: dispatch on the class name, rebuild the
operation from the named fields, numerics through `number_to_money`
(the `Money` constructor).  An unknown class name or a field mismatch
raises, modelled as `none`. -/
def loadOpFromDict : String × List (String × Val) → Option Op
  | ("AddAccount", [("name", .str n)]) => some (.addAccount n)
  | ("RemoveAccount", [("name", .str n)]) => some (.removeAccount n)
  | ("AddPot", []) => some .addPot
  | ("Debt", [("amount", .num q), ("creditor", .str c), ("debitor", .str d),
      ("subject", .str subj)]) => some (.debt (numberToMoney q) c d subj)
  | ("TransferDebt", [("amount", .num q), ("old_debitor", .str o),
      ("new_debitor", .str nw)]) => some (.transferDebt (numberToMoney q) o nw)
  | ("RequestContribution", [("amount", .num q)]) =>
    some (.requestContribution (numberToMoney q))
  | ("SharedExpense", [("amount", .num q), ("payer", .str p), ("subject", .str subj)]) =>
    some (.sharedExpense (numberToMoney q) p subj)
  | ("Transfer", [("amount", .num q), ("sender", .str sd), ("receiver", .str rc)]) =>
    some (.transfer (numberToMoney q) sd rc)
  | ("Reimburse", [("amount", .num q), ("receiver", .str rc)]) =>
    some (.reimburse (numberToMoney q) rc)
  | ("PaysContribution", [("amount", .num q), ("sender", .str sd)]) =>
    some (.paysContribution (numberToMoney q) sd)
  | _ => none

/-- The amount carried by an operation is small enough for the float
codec to be exact to the cent (below `2^52` cents, about 4.5 × 10¹³
euros). -/
def opSmall : Op → Prop
  | .addAccount _ => True
  | .removeAccount _ => True
  | .addPot => True
  | .debt a _ _ _ => |a| < 2 ^ 52
  | .transferDebt a _ _ => |a| < 2 ^ 52
  | .requestContribution a => |a| < 2 ^ 52
  | .sharedExpense a _ _ => |a| < 2 ^ 52
  | .transfer a _ _ => |a| < 2 ^ 52
  | .reimburse a _ => |a| < 2 ^ 52
  | .paysContribution a _ => |a| < 2 ^ 52

theorem op_roundtrip (op : Op) (h : opSmall op) :
    loadOpFromDict (opAsDict op) = some op := by
  cases op with
  | addAccount n => rfl
  | removeAccount n => rfl
  | addPot => rfl
  | debt a c d subj =>
    show some (Op.debt (numberToMoney (moneyToFloat a)) c d subj) = some (Op.debt a c d subj)
    rw [money_float_roundtrip a h]
  | transferDebt a o nw =>
    show some (Op.transferDebt (numberToMoney (moneyToFloat a)) o nw) =
      some (Op.transferDebt a o nw)
    rw [money_float_roundtrip a h]
  | requestContribution a =>
    show some (Op.requestContribution (numberToMoney (moneyToFloat a))) =
      some (Op.requestContribution a)
    rw [money_float_roundtrip a h]
  | sharedExpense a p subj =>
    show some (Op.sharedExpense (numberToMoney (moneyToFloat a)) p subj) =
      some (Op.sharedExpense a p subj)
    rw [money_float_roundtrip a h]
  | transfer a sd rc =>
    show some (Op.transfer (numberToMoney (moneyToFloat a)) sd rc) =
      some (Op.transfer a sd rc)
    rw [money_float_roundtrip a h]
  | reimburse a rc =>
    show some (Op.reimburse (numberToMoney (moneyToFloat a)) rc) =
      some (Op.reimburse a rc)
    rw [money_float_roundtrip a h]
  | paysContribution a sd =>
    show some (Op.paysContribution (numberToMoney (moneyToFloat a)) sd) =
      some (Op.paysContribution a sd)
    rw [money_float_roundtrip a h]

/-- Decode a serialized operation sequence in order; any failure is
fatal (replay aborts), as in `Ledger.load_from_file`. -/
def decodeDicts : List (String × List (String × Val)) → Option (List Op)
  | [] => some []
  | d :: rest =>
    match loadOpFromDict d, decodeDicts rest with
    | some op, some ops => some (op :: ops)
    | _, _ => none

theorem dicts_decode (ops : List Op) (h : ∀ op ∈ ops, opSmall op) :
    decodeDicts (ops.map opAsDict) = some ops := by
  induction ops with
  | nil => rfl
  | cons o rest ih =>
    have h1 : loadOpFromDict (opAsDict o) = some o := op_roundtrip o (h o (by simp))
    have h2 : decodeDicts (rest.map opAsDict) = some rest :=
      ih (fun op hop => h op (by simp [hop]))
    simp [decodeDicts, h1, h2]

theorem reachable_replay (l : Ledger) (h : Reachable l) :
    replayOps l.operations = .ok l := by
  induction h with
  | base => rfl
  | step hR happ ih =>
    rename_i l op l'
    obtain ⟨s', happ', heq, hL⟩ := apply_ok _ _ _ happ
    have hops : l'.operations = l.operations ++ [op] := by
      rw [hL]
      simp [Ledger.operations]
    rw [hops, replayOps, List.foldlM_append]
    have hfirst :
        (l.operations.foldlM
          (fun l op =>
            match l.apply op with
            | (l', none) => Except.ok l'
            | (_, some e) => Except.error e)
          (⟨[]⟩ : Ledger)) = Except.ok l := ih
    rw [hfirst]
    show List.foldlM
        (fun l op =>
          match l.apply op with
          | (l', none) => Except.ok l'
          | (_, some e) => Except.error e) l [op] = Except.ok l'
    simp only [List.foldlM_cons, List.foldlM_nil]
    rw [happ]
    rfl

/-- C6 (amended) — Serialization round-trip and replay: for every
reachable ledger all of whose operation amounts are below `2^52` cents,
serializing the operations with `operation_as_dict` and loading them
back with `load_operation_from_dict` recovers exactly the same
operations, and replaying them into a fresh ledger reproduces the state
and the operation list. -/
theorem replay_roundtrip (l : Ledger) (h : Reachable l)
    (hs : ∀ op ∈ l.operations, opSmall op) :
    decodeDicts (l.operations.map opAsDict) = some l.operations ∧
    ∃ l2, replayOps l.operations = .ok l2 ∧ l2.state = l.state ∧
      l2.operations = l.operations :=
  ⟨dicts_decode _ hs, ⟨l, reachable_replay l h, rfl, rfl⟩⟩

/-- C6 witness: the round-trip theorem applied to a concrete one-record
ledger. -/
theorem replay_roundtrip_witness :
    Reachable (⟨[⟨[("a", ⟨0, 0, false⟩)], Op.addAccount "a"⟩]⟩ : Ledger) ∧
    (∀ op ∈ (Ledger.mk [⟨[("a", ⟨0, 0, false⟩)], Op.addAccount "a"⟩]).operations,
      opSmall op) ∧
    (decodeDicts ((Ledger.mk [⟨[("a", ⟨0, 0, false⟩)], Op.addAccount "a"⟩]).operations.map
        opAsDict) =
      some (Ledger.mk [⟨[("a", ⟨0, 0, false⟩)], Op.addAccount "a"⟩]).operations ∧
    ∃ l2, replayOps (Ledger.mk [⟨[("a", ⟨0, 0, false⟩)], Op.addAccount "a"⟩]).operations =
        .ok l2 ∧
      l2.state = Ledger.state ⟨[⟨[("a", ⟨0, 0, false⟩)], Op.addAccount "a"⟩]⟩ ∧
      l2.operations = (Ledger.mk [⟨[("a", ⟨0, 0, false⟩)], Op.addAccount "a"⟩]).operations) :=
  ⟨@Reachable.step ⟨[]⟩ (Op.addAccount "a") _ Reachable.base (by decide),
    fun op hop => by
      simp [Ledger.operations] at hop
      subst hop
      trivial,
    replay_roundtrip _
      (@Reachable.step ⟨[]⟩ (Op.addAccount "a") _ Reachable.base (by decide))
      (fun op hop => by
        simp [Ledger.operations] at hop
        subst hop
        trivial)⟩

-- Concrete evaluation of the float codec at the first cent value it
-- corrupts: 9007199254740993.00 euros, i.e. (2^53 + 1) * 100 cents.

theorem natlog_big : Nat.log 2 9007199254740993 = 53 :=
  Nat.log_eq_of_pow_le_of_lt_pow (by norm_num) (by norm_num)

theorem intlog_big : Int.log 2 (9007199254740993 : ℚ) = 53 := by
  rw [show (9007199254740993 : ℚ) = ((9007199254740993 : ℕ) : ℚ) by norm_num,
    Int.log_natCast, natlog_big]
  norm_num

theorem rne_big : rne ((9007199254740993 : ℚ) / 2) = 4503599627370496 := by
  have hf : ⌊(9007199254740993 : ℚ) / 2⌋ = 4503599627370496 := by norm_num
  rw [rne, hf]
  rw [if_neg (by norm_num), if_neg (by norm_num), if_pos (by decide)]

theorem dbl_big : dbl (9007199254740993 : ℚ) = 9007199254740992 := by
  rw [dbl, if_neg (by norm_num), if_pos (by norm_num), dblPos, intlog_big]
  norm_num
  rw [rne_big]
  norm_num

theorem debt_big_decode :
    loadOpFromDict (opAsDict (Op.debt 900719925474099300 "a" "b" "x")) =
      some (Op.debt 900719925474099200 "a" "b" "x") := by
  show some (Op.debt (numberToMoney (moneyToFloat 900719925474099300)) "a" "b" "x") = _
  have h1 : moneyToFloat 900719925474099300 = 9007199254740992 := by
    rw [moneyToFloat,
      show ((900719925474099300 : ℤ) : ℚ) / 100 = (9007199254740993 : ℚ) by norm_num,
      dbl_big]
  rw [h1]
  have h2 : numberToMoney (9007199254740992 : ℚ) = 900719925474099200 := by
    rw [numberToMoney, moneyOfRat_eq_rne,
      show (100 : ℚ) * 9007199254740992 = ((900719925474099200 : ℤ) : ℚ) by norm_num,
      rne_intCast]
  rw [h2]

/-- C6 counterexample — replay idempotence fails as universally stated:
the ledger built from `AddAccount a; AddAccount b;
Debt(9007199254740993.00, a, b)` applies successfully, but its `Debt`
amount does not survive the float serialization (`2^53 + 1` euros is
not a binary64 value and rounds to `2^53`), so the recovered operation
list differs from the original and replaying it produces a different
final state. -/
theorem replay_roundtrip_counterexample :
    (scenarioDiffs [Op.addAccount "a", Op.addAccount "b",
        Op.debt 900719925474099300 "a" "b" "x"] =
      some ([("a", 900719925474099300), ("b", -900719925474099300)], 0)) ∧
    (decodeDicts ([Op.addAccount "a", Op.addAccount "b",
        Op.debt 900719925474099300 "a" "b" "x"].map opAsDict) =
      some [Op.addAccount "a", Op.addAccount "b",
        Op.debt 900719925474099200 "a" "b" "x"]) ∧
    ([Op.addAccount "a", Op.addAccount "b", Op.debt 900719925474099200 "a" "b" "x"] ≠
      [Op.addAccount "a", Op.addAccount "b", Op.debt 900719925474099300 "a" "b" "x"]) ∧
    (scenarioDiffs [Op.addAccount "a", Op.addAccount "b",
        Op.debt 900719925474099200 "a" "b" "x"] =
      some ([("a", 900719925474099200), ("b", -900719925474099200)], 0)) ∧
    (([("a", (900719925474099200 : ℤ)), ("b", -900719925474099200)], (0 : ℤ)) ≠
      ([("a", (900719925474099300 : ℤ)), ("b", -900719925474099300)], (0 : ℤ))) := by
  refine ⟨by decide, ?_, by decide, by decide, by decide⟩
  have d1 : loadOpFromDict (opAsDict (Op.addAccount "a")) = some (Op.addAccount "a") := rfl
  have d2 : loadOpFromDict (opAsDict (Op.addAccount "b")) = some (Op.addAccount "b") := rfl
  simp [decodeDicts, d1, d2, debt_big_decode]
